import Mathlib

/-!
Verification of the scheduling engine of the Install Scheduling App
(src/backend/index.js).

Modelling conventions:
* Timestamps are minutes since the epoch 1970-01-01T00:00 as integers
  (JavaScript Date millisecond arithmetic scaled to whole minutes; every
  quantity the engine manipulates is a whole number of minutes).  Day 0 is
  a Thursday, so the JavaScript day-of-week of day d is (d + 4) mod 7 with
  0 = Sunday and 6 = Saturday.  The server clock is taken as UTC, so
  Date.getDay / Date.getHours and toISOString agree on the calendar day.
* Calendar-day keys (the ISO strings produced by toISOString().slice(0,10))
  are represented by the day number, i.e. the floor of timestamp / 1440.
* JavaScript numbers (man-hours, durations) are modelled as exact
  rationals.
-/

set_option maxRecDepth 8000
set_option maxHeartbeats 1000000

namespace InstallSched

/-- Scheduling settings snapshot: the rows of the settings table read by the
backend (core_start_hour, core_end_hour, drive_out_minutes,
drive_return_minutes, holidays). -/
structure Config where
  coreStart : Nat
  coreEnd : Nat
  driveOut : Nat
  driveBack : Nat
  holidays : List Int
deriving DecidableEq

/-- Calendar day of a timestamp, the counterpart of
toISOString().slice(0,10); Int division is Euclidean, hence floor for the
positive divisor 1440. -/
def dayOf (t : Int) : Int := t / 1440

/-- Hour-of-day of a timestamp, the counterpart of Date.getHours(). -/
def hourOf (t : Int) : Nat := (t % 1440).toNat / 60

/-- The timestamp of calendar day d at hour h, i.e. setHours(h,0,0,0). -/
def atHour (d : Int) (h : Nat) : Int := d * 1440 + (h : Int) * 60

/-- JavaScript Date.getDay() of a calendar day: 0 = Sunday .. 6 = Saturday. -/
def dowOf (d : Int) : Int := (d + 4) % 7

/-- cursor.getDay()===0 || cursor.getDay()===6 (src/backend/index.js:330,422). -/
def isWeekendDay (d : Int) : Prop := dowOf d = 0 ∨ dowOf d = 6

instance (d : Int) : Decidable (isWeekendDay d) :=
  inferInstanceAs (Decidable (dowOf d = 0 ∨ dowOf d = 6))

/-- Weekend or holiday test used by the date shift and by the slice loop
(src/backend/index.js:337,343,422). -/
def isNonWorkingDay (cfg : Config) (d : Int) : Prop :=
  isWeekendDay d ∨ d ∈ cfg.holidays

instance (cfg : Config) (d : Int) : Decidable (isNonWorkingDay cfg d) :=
  inferInstanceAs (Decidable (isWeekendDay d ∨ d ∈ cfg.holidays))

/-- The while(true) advance loop of the weekend/holiday shift
(src/backend/index.js:339-345): step one calendar day forward (time of day
preserved) until the day is a working day.  The source loop is unbounded;
fuel makes it structurally recursive, and shiftFuel is large enough for
every input whose first working day is within ten years. -/
def shiftLoop (cfg : Config) : Nat → Int → Int
  | 0, t => t
  | fuel + 1, t =>
    if isNonWorkingDay cfg (dayOf t) then shiftLoop cfg fuel (t + 1440) else t

def shiftFuel : Nat := 3660

/-- Weekend/holiday auto-shift of POST /api/schedules
(src/backend/index.js:327-350) and PATCH /api/schedules/:id
(src/backend/index.js:522-543): the shift runs only when the requested day
is non-working and neither the hours/overlap override nor the core-hours
override is set. -/
def postShiftDate (cfg : Config) (ovr co : Bool) (t : Int) : Int :=
  if isNonWorkingDay cfg (dayOf t) ∧ ovr = false ∧ co = false then
    shiftLoop cfg shiftFuel t
  else t

/-- One generated day slice: start timestamp and clock-hour duration
(src/backend/index.js:411,442). -/
structure Slice where
  start : Int
  hours : ℚ
deriving DecidableEq

/-- Cursor advance to the next day at core start:
cursor.setDate(getDate()+1); cursor.setHours(coreStart,0,0,0)
(src/backend/index.js:424,430,440,444). -/
def nextCursor (cfg : Config) (day : Int) : Int := atHour (day + 1) cfg.coreStart

/-- workStart before the first-day adjustment: dayStart plus outbound drive
minutes (src/backend/index.js:425,428). -/
def dayWorkStart0 (cfg : Config) (day : Int) : Int :=
  atHour day cfg.coreStart + (cfg.driveOut : Int)

/-- workEndCap: dayEnd minus return drive minutes
(src/backend/index.js:426,429). -/
def dayWorkEndCap (cfg : Config) (day : Int) : Int :=
  atHour day cfg.coreEnd - (cfg.driveBack : Int)

/-- First-iteration adjustment (src/backend/index.js:432-438): when the
requested start lies strictly inside the working window of the first
iterated day, it replaces workStart. -/
def firstDayAdjust (cfg : Config) (s0 : Int) (first : Bool) (day : Int) : Int :=
  if first = true ∧ dayWorkStart0 cfg day < s0 ∧ s0 < dayWorkEndCap cfg day then s0
  else dayWorkStart0 cfg day

/-- workCapHours of a day: (workEndCap - workStart) / 3600000 in the source,
here minutes / 60 (src/backend/index.js:439). -/
def dayCapHours (cfg : Config) (s0 : Int) (first : Bool) (day : Int) : ℚ :=
  ((dayWorkEndCap cfg day - firstDayAdjust cfg s0 first day : Int) : ℚ) / 60

/-- The day-by-day slice loop of generateSlices
(src/backend/index.js:414-447, identically 605-623).
State: remaining clock hours and the cursor; fuel is 100 - idx, so the
first iteration (idx === 0) is the one with first = true, and the source
bound idx < 100 is fuel running out.  The second component is the final
value of the remaining variable. -/
def sliceLoopAux (cfg : Config) (s0 : Int) : Nat → Bool → ℚ → Int → (List Slice × ℚ)
  | 0, _, rem, _ => ([], rem)
  | fuel + 1, first, rem, cursor =>
    if rem ≤ 0 then ([], rem)
    else if isNonWorkingDay cfg (dayOf cursor) then
      sliceLoopAux cfg s0 fuel false rem (nextCursor cfg (dayOf cursor))
    else if dayWorkEndCap cfg (dayOf cursor) ≤ dayWorkStart0 cfg (dayOf cursor) then
      sliceLoopAux cfg s0 fuel false rem (nextCursor cfg (dayOf cursor))
    else if dayCapHours cfg s0 first (dayOf cursor) ≤ 0 then
      sliceLoopAux cfg s0 fuel false rem (nextCursor cfg (dayOf cursor))
    else
      (⟨firstDayAdjust cfg s0 first (dayOf cursor),
          min rem (dayCapHours cfg s0 first (dayOf cursor))⟩ ::
        (sliceLoopAux cfg s0 fuel false
          (rem - min rem (dayCapHours cfg s0 first (dayOf cursor)))
          (nextCursor cfg (dayOf cursor))).1,
       (sliceLoopAux cfg s0 fuel false
          (rem - min rem (dayCapHours cfg s0 first (dayOf cursor)))
          (nextCursor cfg (dayOf cursor))).2)

/-- Initial cursor alignment: if (cursor.getHours() < coreStart)
cursor.setHours(coreStart,0,0,0) (src/backend/index.js:419). -/
def alignStart (cfg : Config) (t : Int) : Int :=
  if hourOf t < cfg.coreStart then atHour (dayOf t) cfg.coreStart else t

/-- coreSpan - driveOut/60 - driveBack/60, the workable span checked by the
configuration guard (src/backend/index.js:405). -/
def workableSpanQ (cfg : Config) : ℚ :=
  ((cfg.coreEnd : ℚ) - (cfg.coreStart : ℚ))
    - (cfg.driveOut : ℚ) / 60 - (cfg.driveBack : ℚ) / 60

/-- Typed counterparts of the error responses of the validation pipeline. -/
inductive SchedErr where
  | config
  | availAllDay
  | availHours
  | overlap
  | dailyCap
deriving DecidableEq

/-- generateSlices (src/backend/index.js:385-448; the PATCH copy at 581-625
is line-for-line the same logic).  Arguments ovr and co are the request
fields override (hours/overlap) and core_hours_override.  Empty installer
list or zero man-hours yield no slices at once; then, when neither
override is set, the configuration guard may throw; a set override takes
the single-slice path; otherwise the day loop runs from the aligned
start. -/
def generateSlices (cfg : Config) (ovr co : Bool) (startT : Int) (total : ℚ)
    (n : Nat) : Except SchedErr (List Slice) :=
  if n = 0 ∨ total = 0 then Except.ok []
  else if co = false ∧ ovr = false ∧ workableSpanQ cfg ≤ 0 then
    Except.error SchedErr.config
  else if co = true ∨ ovr = true then Except.ok [⟨startT, total / (n : ℚ)⟩]
  else
    Except.ok (sliceLoopAux cfg startT 100 true (total / (n : ℚ)) (alignStart cfg startT)).1

/-- Sum of the generated duration_hours. -/
def sumHours (l : List Slice) : ℚ := (l.map Slice.hours).sum

/-- One availability record (availability[instId][dayStr]): out-all-day
flag and optional out-hours list (src/backend/index.js:371-381). -/
structure AvailRec where
  out : Bool
  outHours : Option (List Nat)
deriving DecidableEq

/-- The whole hours touched on the start day: for h from 0 while
h < perInstallerHours and startHour + h < 24, collect startHour + h
(src/backend/index.js:365-369). -/
def hoursSpan (startHour : Nat) (per : ℚ) : List Nat :=
  ((List.range 24).takeWhile
      (fun (h : Nat) => decide (((h : ℚ) < per) ∧ startHour + h < 24))).map
    (fun h => startHour + h)

/-- Availability test for one installer (src/backend/index.js:370-382): a
missing record means available; out means out all day; otherwise a listed
out-hour meeting the touched span is an hour conflict. -/
def availCheckOne (avail : Nat → Int → Option AvailRec) (day : Int)
    (span : List Nat) (i : Nat) : Option SchedErr :=
  match avail i day with
  | none => none
  | some r =>
    if r.out = true then some SchedErr.availAllDay
    else
      match r.outHours with
      | some oh => if span.any (fun h => decide (h ∈ oh)) then some SchedErr.availHours else none
      | none => none

/-- Availability enforcement of POST /api/schedules
(src/backend/index.js:352-383; PATCH copy at 545-578): per-installer check
on the (possibly shifted) start date, first failure returned. -/
def availabilityCheck (avail : Nat → Int → Option AvailRec)
    (installers : List Nat) (man : ℚ) (date : Int) : Option SchedErr :=
  installers.findSome?
    (availCheckOne avail (dayOf date)
      (hoursSpan (hourOf date) (man / (installers.length : ℚ))))

/-- One persisted slice row joined with its schedule and installer, the
shape returned by the existingDaySlices query
(src/backend/index.js:460-468). -/
structure ExRow where
  installer : Nat
  scheduleId : Nat
  start : Int
  hours : ℚ
deriving DecidableEq

/-- The rows of one installer on one calendar day (the LIKE day% filter of
the query). -/
def rowsFor (existing : List ExRow) (i : Nat) (day : Int) : List ExRow :=
  existing.filter (fun r => decide (r.installer = i ∧ dayOf r.start = day))

/-- The inner row loop of the 8-hour/overlap validation
(src/backend/index.js:469-482; PATCH copy at 646-659): skip the edited
schedule's own rows, accumulate assigned clock hours, fail on window
overlap; after the rows, fail when assigned + slice hours exceed 8.0001. -/
def capGo (editId : Option Nat) (sliceStartQ sliceEndQ sliceHours : ℚ) :
    List ExRow → ℚ → Option SchedErr
  | [], assigned =>
    if assigned + sliceHours > 8.0001 then some SchedErr.dailyCap else none
  | r :: rs, assigned =>
    if editId = some r.scheduleId then capGo editId sliceStartQ sliceEndQ sliceHours rs assigned
    else
      if (r.start : ℚ) < sliceEndQ ∧ sliceStartQ < (r.start : ℚ) + r.hours * 60 then
        some SchedErr.overlap
      else capGo editId sliceStartQ sliceEndQ sliceHours rs (assigned + r.hours)

/-- Daily-cap and overlap validation of one provisional slice against one
installer (src/backend/index.js:454-483). -/
def checkOne (existing : List ExRow) (editId : Option Nat) (sl : Slice)
    (i : Nat) : Option SchedErr :=
  capGo editId (sl.start : ℚ) ((sl.start : ℚ) + sl.hours * 60) sl.hours
    (rowsFor existing i (dayOf sl.start)) 0

/-- The slices-by-installers double loop of the validation
(src/backend/index.js:453-485; PATCH copy at 633-662), first failure
returned. -/
def capOverlapCheck (existing : List ExRow) (editId : Option Nat)
    (installers : List Nat) (slices : List Slice) : Option SchedErr :=
  slices.findSome? (fun sl => installers.findSome? (checkOne existing editId sl))

/-- Sum of the already assigned clock hours counted by the validation: the
rows of the installer on the day, the edited schedule's rows excluded. -/
def assignedSum (existing : List ExRow) (editId : Option Nat) (i : Nat)
    (day : Int) : ℚ :=
  (((rowsFor existing i day).filter
      (fun r => decide (editId ≠ some r.scheduleId))).map ExRow.hours).sum

/-- The request body fields of POST /api/schedules that the engine reads
(src/backend/index.js:317,322). -/
structure PostReq where
  date : Int
  man_hours : ℚ
  installers : List Nat
  override : Bool
  core_hours_override : Bool
  override_availability : Bool

/-- The guard of the availability enforcement block
(src/backend/index.js:352): installers present, man-hours truthy, and
neither the hours/overlap override nor the availability override set. -/
def availGate (cfg : Config) (avail : Nat → Int → Option AvailRec)
    (req : PostReq) : Option SchedErr :=
  if req.installers ≠ [] ∧ req.man_hours ≠ 0 ∧ req.override = false
      ∧ req.override_availability = false then
    availabilityCheck avail req.installers req.man_hours
      (postShiftDate cfg req.override req.core_hours_override req.date)
  else none

/-- The guard of the 8-hour/overlap validation block
(src/backend/index.js:453): installers present, man-hours truthy and no
hours/overlap override. -/
def capGate (existing : List ExRow) (req : PostReq) (slices : List Slice) :
    Option SchedErr :=
  if req.installers ≠ [] ∧ req.man_hours ≠ 0 ∧ req.override = false then
    capOverlapCheck existing none req.installers slices
  else none

/-- The scheduling part of POST /api/schedules (src/backend/index.js:315-501):
weekend/holiday shift, availability enforcement (only with installers,
man-hours and neither override nor override_availability), slice
generation, then the 8-hour/overlap validation (only with installers,
man-hours and no override).  Returns the persisted date and slices. -/
def postSchedule (cfg : Config) (avail : Nat → Int → Option AvailRec)
    (existing : List ExRow) (req : PostReq) : Except SchedErr (Int × List Slice) :=
  match availGate cfg avail req with
  | some e => Except.error e
  | none =>
    match generateSlices cfg req.override req.core_hours_override
        (postShiftDate cfg req.override req.core_hours_override req.date)
        req.man_hours req.installers.length with
    | Except.error e => Except.error e
    | Except.ok slices =>
      match capGate existing req slices with
      | some e => Except.error e
      | none =>
        Except.ok (postShiftDate cfg req.override req.core_hours_override req.date, slices)

/-- An availability-conflict response, as opposed to the configuration,
overlap and daily-cap responses. -/
def isAvailErr : SchedErr → Bool
  | SchedErr.availAllDay => true
  | SchedErr.availHours => true
  | _ => false

/-- Whether a pipeline result is an availability-conflict failure. -/
def resAvailErr : Except SchedErr (Int × List Slice) → Bool
  | Except.error e => isAvailErr e
  | Except.ok _ => false

/-- Per-day workable clock hours on the normal path:
(coreEnd - coreStart) - (driveOut + driveBack)/60. -/
def capQ (cfg : Config) : ℚ :=
  ((cfg.coreEnd : ℚ) - (cfg.coreStart : ℚ))
    - ((cfg.driveOut : ℚ) + (cfg.driveBack : ℚ)) / 60

/-- Default settings (src/backend/index.js:221-226): core hours 8-16, no
drive reservation, no holidays. -/
def cfgD : Config := ⟨8, 16, 0, 0, []⟩

/-- Equality of pipeline results is decidable. -/
def exceptDecEq {ε α : Type} [DecidableEq ε] [DecidableEq α] :
    (a b : Except ε α) → Decidable (a = b)
  | Except.error e, Except.error f => decidable_of_iff (e = f) (by simp)
  | Except.error _, Except.ok _ => isFalse (by simp)
  | Except.ok _, Except.error _ => isFalse (by simp)
  | Except.ok x, Except.ok y => decidable_of_iff (x = y) (by simp)

instance {ε α : Type} [DecidableEq ε] [DecidableEq α] :
    DecidableEq (Except ε α) := exceptDecEq

/-- Core hours 8-8: zero core span. -/
def cfgZ : Config := ⟨8, 8, 0, 0, []⟩

/-- Core hours 8-16 with 240 drive minutes each way: exactly zero workable
span. -/
def cfgB : Config := ⟨8, 16, 240, 240, []⟩

/-- Default hours with one hundred consecutive holidays starting Monday
1970-01-05 (day 4). -/
def cfgH : Config := ⟨8, 16, 0, 0, (List.range 100).map (fun i => 4 + (i : Int))⟩

/-- Availability snapshot: installer 1 is out all day on Monday day 4. -/
def avail0 : Nat → Int → Option AvailRec := fun i d =>
  if i = 1 ∧ d = 4 then some ⟨true, none⟩ else none

/-- Request: Monday 08:00, 4 man-hours, installer 1, hours/overlap override
set, availability override not set. -/
def req1 : PostReq := ⟨6240, 4, [1], true, false, false⟩

/-- Request: Saturday 10:00 start, zero man-hours, installer 1, no
overrides. -/
def req2 : PostReq := ⟨3480, 0, [1], false, false, false⟩

/-- On the no-override path with installers and man-hours present and a
positive workable span, generateSlices runs the day loop. -/
lemma generateSlices_day_path (cfg : Config) (s : Int) (total : ℚ) (n : Nat)
    (hn : n ≠ 0) (ht : total ≠ 0) (hspan : ¬ workableSpanQ cfg ≤ 0) :
    generateSlices cfg false false s total n
      = Except.ok (sliceLoopAux cfg s 100 true (total / (n : ℚ)) (alignStart cfg s)).1 := by
  unfold generateSlices
  simp [hn, ht, hspan]

lemma shiftLoop_stop (cfg : Config) (fuel : Nat) (t : Int)
    (h : ¬ isNonWorkingDay cfg (dayOf t)) : shiftLoop cfg fuel t = t := by
  cases fuel <;> simp [shiftLoop, h]

lemma shiftLoop_adv (cfg : Config) :
    ∀ (k fuel : Nat) (t : Int), k ≤ fuel →
      ¬ isNonWorkingDay cfg (dayOf t + (k : Int)) →
      (∀ j : Nat, j < k → isNonWorkingDay cfg (dayOf t + (j : Int))) →
      shiftLoop cfg fuel t = t + 1440 * (k : Int) := by
  intro k
  induction k with
  | zero =>
    intro fuel t _ hw _
    have := shiftLoop_stop cfg fuel t (by simpa using hw)
    simpa using this
  | succ m ih =>
    intro fuel t hk hw hall
    have h0 : isNonWorkingDay cfg (dayOf t) := by
      simpa using hall 0 (Nat.succ_pos m)
    obtain ⟨f, rfl⟩ : ∃ f, fuel = f + 1 := ⟨fuel - 1, by omega⟩
    rw [shiftLoop, if_pos h0]
    have hd : dayOf (t + 1440) = dayOf t + 1 := by unfold dayOf; omega
    have hrec := ih f (t + 1440) (by omega)
      (by rw [hd]; have : dayOf t + 1 + (m : Int) = dayOf t + ((m + 1 : Nat) : Int) := by
            push_cast; ring
          rw [this]; exact hw)
      (by intro j hj
          rw [hd]
          have := hall (j + 1) (by omega)
          have hcast : dayOf t + 1 + (j : Int) = dayOf t + ((j + 1 : Nat) : Int) := by
            push_cast; ring
          rw [hcast]; exact this)
    rw [hrec]; push_cast; ring

/-- Claim C1, as stated, is false: with overrideCoreHours false but the
hours/overlap override set, generateSlices still emits the single
unclamped slice (here a 20-hour slice starting Monday 20:00), and this
differs from the day-by-day result at the same input. -/
theorem c1_counterexample :
    generateSlices cfgD true false 6960 20 1 = Except.ok [⟨6960, 20⟩]
      ∧ generateSlices cfgD true false 6960 20 1
          ≠ generateSlices cfgD false false 6960 20 1 :=
  ⟨by with_unfolding_all rfl, of_decide_eq_true (by with_unfolding_all rfl)⟩

/-- Claim C1 (amended): the single-slice path is taken exactly when
overrideCoreHours or the hours/overlap override is set (installer list
non-empty, man-hours non-zero); only with both flags false does the
generator take the day-by-day path. -/
theorem c1_amended_theorem (cfg : Config) (ovr co : Bool) (s : Int)
    (total : ℚ) (n : Nat) (hn : n ≠ 0) (ht : total ≠ 0) :
    ((ovr = true ∨ co = true) →
      generateSlices cfg ovr co s total n = Except.ok [⟨s, total / (n : ℚ)⟩])
    ∧ (ovr = false → co = false → ¬ workableSpanQ cfg ≤ 0 →
      generateSlices cfg ovr co s total n
        = Except.ok (sliceLoopAux cfg s 100 true (total / (n : ℚ)) (alignStart cfg s)).1) := by
  constructor
  · intro hoc
    unfold generateSlices
    rcases hoc with h | h <;> cases ovr <;> cases co <;> simp_all [hn, ht]
  · intro ho hc hspan
    subst ho; subst hc
    exact generateSlices_day_path cfg s total n hn ht hspan

/-- Witness for c1_amended_theorem at a concrete input. -/
theorem c1_witness :
    generateSlices cfgD true false 6960 20 1
      = Except.ok [⟨6960, 20 / ((1 : Nat) : ℚ)⟩] :=
  (c1_amended_theorem cfgD true false 6960 20 1 (by decide) (by norm_num)).1
    (Or.inl rfl)

/-- Claim C2, as stated, is false: a Saturday 10:00 request with the
hours/overlap override set (and overrideCoreHours false) is not shifted,
although the claim allows only overrideCoreHours to suppress the shift. -/
theorem c2_counterexample :
    postShiftDate cfgD true false 3480 = 3480 ∧ isWeekendDay (dayOf 3480) :=
  ⟨by with_unfolding_all rfl, by decide⟩

/-- Claim C2 (amended): the shift is suppressed by the hours/overlap
override as well as by overrideCoreHours; with both false, a working-day
request is unchanged, and a non-working-day request advances one calendar
day at a time (time-of-day preserved) to the first working day. -/
theorem c2_amended_theorem (cfg : Config) (ovr co : Bool) (t : Int) :
    ((ovr = true ∨ co = true) → postShiftDate cfg ovr co t = t)
    ∧ (ovr = false → co = false → ¬ isNonWorkingDay cfg (dayOf t) →
        postShiftDate cfg ovr co t = t)
    ∧ (∀ k : Nat, ovr = false → co = false → k ≤ shiftFuel →
        ¬ isNonWorkingDay cfg (dayOf t + (k : Int)) →
        (∀ j : Nat, j < k → isNonWorkingDay cfg (dayOf t + (j : Int))) →
        postShiftDate cfg ovr co t = t + 1440 * (k : Int)) := by
  refine ⟨?_, ?_, ?_⟩
  · intro hoc
    unfold postShiftDate
    rcases hoc with h | h <;> subst h <;> simp
  · intro ho hc hw
    subst ho; subst hc
    unfold postShiftDate
    simp [hw]
  · intro k ho hc hk hw hall
    subst ho; subst hc
    rcases Nat.eq_zero_or_pos k with hk0 | hk0
    · subst hk0
      unfold postShiftDate
      simp only [Nat.cast_zero, add_zero] at hw ⊢
      simp [hw]
    · have h0 : isNonWorkingDay cfg (dayOf t) := by
        simpa using hall 0 hk0
      unfold postShiftDate
      rw [if_pos ⟨h0, rfl, rfl⟩]
      exact shiftLoop_adv cfg k shiftFuel t hk hw hall

/-- Witness for c2_amended_theorem: Saturday 10:00 with no overrides moves
two days to Monday 10:00. -/
theorem c2_witness :
    postShiftDate cfgD false false 3480 = 3480 + 1440 * ((2 : Nat) : Int) :=
  (c2_amended_theorem cfgD false false 3480).2.2 2 rfl rfl (by decide)
    (by decide) (by decide)

/-- Claim C7, as stated, is false: with overrideCoreHours false but the
hours/overlap override set, a zero core span produces no
ConfigurationError; a slice is emitted instead. -/
theorem c7_counterexample :
    generateSlices cfgZ true false 6240 4 1 = Except.ok [⟨6240, 4⟩]
      ∧ workableSpanQ cfgZ ≤ 0 := by
  constructor
  · with_unfolding_all rfl
  · norm_num [workableSpanQ, cfgZ]

/-- Claim C7 (amended): with both overrideCoreHours and the hours/overlap
override false (and installers and man-hours present), a workable span
less than or equal to zero makes generateSlices reject with the
configuration error before emitting any slice. -/
theorem c7_amended_theorem (cfg : Config) (s : Int) (total : ℚ) (n : Nat)
    (hn : n ≠ 0) (ht : total ≠ 0) (hbad : workableSpanQ cfg ≤ 0) :
    generateSlices cfg false false s total n = Except.error SchedErr.config := by
  unfold generateSlices
  simp [hn, ht, hbad]

/-- Witness for c7_amended_theorem at the boundary: core span 8 hours,
240 drive minutes each way, workable span exactly zero. -/
theorem c7_witness :
    generateSlices cfgB false false 6240 4 1 = Except.error SchedErr.config :=
  c7_amended_theorem cfgB 6240 4 1 (by decide) (by norm_num)
    (by norm_num [workableSpanQ, cfgB])

/-- Claim C8: Scenario 1.  Core hours 8-16, no drive reservation, one
installer, 20 man-hours, requested start Friday 1970-01-02 08:00
(timestamp 1920, day 1, day-of-week 5 = Friday): exactly three slices,
Friday 08:00 for 8 hours, Monday (day 4, day-of-week 1) 08:00 for 8
hours and Tuesday (day 5, day-of-week 2) 08:00 for 4 hours. -/
theorem c8_theorem :
    generateSlices cfgD false false 1920 20 1
        = Except.ok [⟨1920, 8⟩, ⟨6240, 8⟩, ⟨7680, 4⟩]
      ∧ dowOf (dayOf 1920) = 5 ∧ dayOf 1920 = 1
      ∧ dowOf (dayOf 6240) = 1 ∧ dayOf 6240 = 4
      ∧ dowOf (dayOf 7680) = 2 ∧ dayOf 7680 = 5 :=
  ⟨by with_unfolding_all rfl, by decide, by decide, by decide, by decide,
    by decide, by decide⟩

/-- Claim C9: zero man-hours (or an empty installer list) short-circuits
slice generation to an empty list, skips the availability and
cap/overlap validations, and the request is persisted with the shifted
date and no slices, for every config, availability snapshot and existing
assignment. -/
theorem c9_theorem (cfg : Config) (avail : Nat → Int → Option AvailRec)
    (existing : List ExRow) (req : PostReq)
    (h : req.man_hours = 0 ∨ req.installers = []) :
    postSchedule cfg avail existing req
      = Except.ok (postShiftDate cfg req.override req.core_hours_override req.date, []) := by
  have hgen : generateSlices cfg req.override req.core_hours_override
      (postShiftDate cfg req.override req.core_hours_override req.date)
      req.man_hours req.installers.length = Except.ok [] := by
    unfold generateSlices
    rcases h with h | h
    · rw [if_pos (Or.inr h)]
    · rw [if_pos (Or.inl (by simp [h]))]
  unfold postSchedule availGate capGate
  rcases h with h | h <;> simp only [h, List.length_nil] at hgen <;>
    simp [h, hgen, capOverlapCheck]

/-- Witness for c9_theorem: a zero-man-hours job starting Saturday 10:00
with a conflicting availability snapshot is persisted (date shifted to
Monday) with zero slices. -/
theorem c9_witness :
    postSchedule cfgD avail0 [⟨1, 5, 6240, 4⟩] req2 = Except.ok (6360, []) := by
  rw [c9_theorem cfgD avail0 [⟨1, 5, 6240, 4⟩] req2 (Or.inl rfl)]
  with_unfolding_all rfl

/-- When no retained row of the day overlaps the new slice window, the row
loop reduces to the daily-cap test on the accumulated assigned hours. -/
lemma capGo_dailyCap_iff (editId : Option Nat) (a b c : ℚ) :
    ∀ (rows : List ExRow) (assigned : ℚ),
      (∀ r ∈ rows, editId ≠ some r.scheduleId →
        ¬ ((r.start : ℚ) < b ∧ a < (r.start : ℚ) + r.hours * 60)) →
      (capGo editId a b c rows assigned = some SchedErr.dailyCap
        ↔ assigned
            + ((rows.filter (fun r => decide (editId ≠ some r.scheduleId))).map ExRow.hours).sum
            + c > 8.0001) := by
  intro rows
  induction rows with
  | nil =>
    intro assigned _
    by_cases hc : assigned + c > 8.0001
    · simp only [capGo, if_pos hc, List.filter_nil, List.map_nil, List.sum_nil]
      constructor
      · intro _; linarith
      · intro _; trivial
    · simp only [capGo, if_neg hc, List.filter_nil, List.map_nil, List.sum_nil]
      constructor
      · intro h; exact absurd h (by simp)
      · intro h; exact absurd (by linarith : assigned + c > 8.0001) hc
  | cons r rs ih =>
    intro assigned hno
    by_cases hskip : editId = some r.scheduleId
    · rw [capGo, if_pos hskip,
        ih assigned (fun x hx => hno x (List.mem_cons_of_mem r hx))]
      have hf : decide (editId ≠ some r.scheduleId) = false := by
        simp [hskip]
      rw [List.filter_cons_of_neg (by simp [hf])]
    · rw [capGo, if_neg hskip,
        if_neg (hno r (List.mem_cons_self r rs) hskip),
        ih (assigned + r.hours) (fun x hx => hno x (List.mem_cons_of_mem r hx))]
      rw [List.filter_cons_of_pos (by simp [hskip]), List.map_cons, List.sum_cons]
      constructor <;> intro h <;> linarith

/-- Claim C3, as stated, is false at the boundary: an installer with 4
persisted hours and a new non-overlapping 4.0001-hour slice reaches a day
total of exactly 8.0001 = 8 + 1e-4, and the validation passes, while the
claim says 8.0001 fails. -/
theorem c3_counterexample :
    checkOne [⟨1, 5, 6240, 4⟩] none ⟨6510, 4.0001⟩ 1 = none
      ∧ assignedSum [⟨1, 5, 6240, 4⟩] none 1 (dayOf 6510) + (4.0001 : ℚ)
          = 8 + 1 / 10000 := by
  constructor
  · with_unfolding_all rfl
  · have h4 : assignedSum [⟨1, 5, 6240, 4⟩] none 1 (dayOf 6510) = 4 := by
      with_unfolding_all rfl
    rw [h4]; norm_num

/-- Claim C3 (amended): with the hours/overlap override unset, and no
overlapping retained row, the validation of a slice against an installer
fails with the daily-cap error exactly when the installer's persisted
clock hours on the slice's day (the edited job excluded) plus the slice
hours strictly exceed 8.0001; a total of exactly 8.0 passes, and the
boundary total of exactly 8.0001 also passes (only strictly larger totals
fail). -/
theorem c3_amended_theorem (existing : List ExRow) (editId : Option Nat)
    (sl : Slice) (i : Nat)
    (hnov : ∀ r ∈ rowsFor existing i (dayOf sl.start),
      editId ≠ some r.scheduleId →
      ¬ ((r.start : ℚ) < (sl.start : ℚ) + sl.hours * 60
          ∧ (sl.start : ℚ) < (r.start : ℚ) + r.hours * 60)) :
    checkOne existing editId sl i = some SchedErr.dailyCap
      ↔ assignedSum existing editId i (dayOf sl.start) + sl.hours > 8.0001 := by
  unfold checkOne assignedSum
  rw [capGo_dailyCap_iff editId _ _ _ _ 0 hnov, zero_add]

/-- Witness for c3_amended_theorem: the same rows with a 4.0002-hour slice
(total 8.0002) fail with the daily-cap error. -/
theorem c3_witness :
    checkOne [⟨1, 5, 6240, 4⟩] none ⟨6510, 4.0002⟩ 1 = some SchedErr.dailyCap := by
  refine (c3_amended_theorem [⟨1, 5, 6240, 4⟩] none ⟨6510, 4.0002⟩ 1 ?_).mpr ?_
  · intro r hr
    have hrows : rowsFor [⟨(1 : Nat), (5 : Nat), (6240 : Int), (4 : ℚ)⟩] 1 (dayOf 6510)
        = [⟨1, 5, 6240, 4⟩] := by with_unfolding_all rfl
    rw [hrows] at hr
    have hr' : r = ⟨1, 5, 6240, 4⟩ := by simpa using hr
    subst hr'
    intro _ hcon
    have h2 := hcon.2
    norm_num at h2
  · have h4 : assignedSum [⟨1, 5, 6240, 4⟩] none 1 (dayOf 6510) = 4 := by
      with_unfolding_all rfl
    rw [h4]; norm_num

/-- The generated slices always sum to the initial remaining hours minus
the final remaining hours of the loop. -/
lemma sliceLoopAux_sum (cfg : Config) (s0 : Int) :
    ∀ (fuel : Nat) (first : Bool) (rem : ℚ) (cur : Int),
      sumHours (sliceLoopAux cfg s0 fuel first rem cur).1
        = rem - (sliceLoopAux cfg s0 fuel first rem cur).2 := by
  intro fuel
  induction fuel with
  | zero => intro first rem cur; simp [sliceLoopAux, sumHours]
  | succ f ih =>
    intro first rem cur
    rw [sliceLoopAux]
    by_cases h0 : rem ≤ 0
    · simp [h0, sumHours]
    · rw [if_neg h0]
      by_cases h1 : isNonWorkingDay cfg (dayOf cur)
      · rw [if_pos h1]; exact ih false rem (nextCursor cfg (dayOf cur))
      · rw [if_neg h1]
        by_cases h2 : dayWorkEndCap cfg (dayOf cur) ≤ dayWorkStart0 cfg (dayOf cur)
        · rw [if_pos h2]; exact ih false rem (nextCursor cfg (dayOf cur))
        · rw [if_neg h2]
          by_cases h3 : dayCapHours cfg s0 first (dayOf cur) ≤ 0
          · rw [if_pos h3]; exact ih false rem (nextCursor cfg (dayOf cur))
          · rw [if_neg h3]
            have htail := ih false
              (rem - min rem (dayCapHours cfg s0 first (dayOf cur)))
              (nextCursor cfg (dayOf cur))
            simp only [sumHours, List.map_cons, List.sum_cons] at htail ⊢
            linarith

/-- Claim C5, as stated, is false: with one hundred consecutive holidays
covering the whole iteration window, the non-override path emits no slice
at all for a 1000-man-hour single-installer job, so the slice hours sum
to 0, not 1000, far outside the 1e-6 tolerance. -/
theorem c5_counterexample :
    generateSlices cfgH false false 6240 1000 1 = Except.ok []
      ∧ ¬ |sumHours [] - 1000 / ((1 : Nat) : ℚ)| ≤ 1 / 1000000 := by
  constructor
  · with_unfolding_all rfl
  · norm_num [sumHours]

/-- Claim C5 (amended): on the non-override path, the sum of the emitted
duration hours equals totalManHours / installerCount exactly (hence
within 1e-6) whenever the loop exhausts the remaining hours within its
100-iteration ceiling; when the ceiling cuts the job short, the sum falls
short by exactly the final remaining hours. -/
theorem c5_amended_theorem (cfg : Config) (s : Int) (total : ℚ) (n : Nat)
    (hn : n ≠ 0) (ht : total ≠ 0) (hspan : ¬ workableSpanQ cfg ≤ 0)
    (hdone : (sliceLoopAux cfg s 100 true (total / (n : ℚ)) (alignStart cfg s)).2 = 0) :
    generateSlices cfg false false s total n
        = Except.ok (sliceLoopAux cfg s 100 true (total / (n : ℚ)) (alignStart cfg s)).1
      ∧ sumHours (sliceLoopAux cfg s 100 true (total / (n : ℚ)) (alignStart cfg s)).1
          = total / (n : ℚ) := by
  refine ⟨generateSlices_day_path cfg s total n hn ht hspan, ?_⟩
  rw [sliceLoopAux_sum cfg s 100 true (total / (n : ℚ)) (alignStart cfg s), hdone,
    sub_zero]

/-- Witness for c5_amended_theorem at the Scenario 1 input, whose remaining
hours reach exactly zero. -/
theorem c5_witness :
    generateSlices cfgD false false 1920 20 1
        = Except.ok (sliceLoopAux cfgD 1920 100 true (20 / ((1 : Nat) : ℚ)) (alignStart cfgD 1920)).1
      ∧ sumHours (sliceLoopAux cfgD 1920 100 true (20 / ((1 : Nat) : ℚ)) (alignStart cfgD 1920)).1
          = 20 / ((1 : Nat) : ℚ) :=
  c5_amended_theorem cfgD 1920 20 1 (by decide) (by norm_num)
    (by norm_num [workableSpanQ, cfgD]) (by with_unfolding_all rfl)

lemma findSome?_eq_none_iff {α β : Type} (f : α → Option β) (l : List α) :
    l.findSome? f = none ↔ ∀ a ∈ l, f a = none := by
  induction l with
  | nil => simp
  | cons x xs ih =>
    rw [List.findSome?_cons]
    cases hf : f x <;> simp [hf, ih]

lemma findSome?_some {α β : Type} (f : α → Option β) (l : List α) (b : β)
    (h : l.findSome? f = some b) : ∃ a ∈ l, f a = some b := by
  induction l with
  | nil => simp at h
  | cons x xs ih =>
    rw [List.findSome?_cons] at h
    cases hf : f x with
    | some c => rw [hf] at h; exact ⟨x, by simp, by simpa using h ▸ hf⟩
    | none => rw [hf] at h; obtain ⟨a, ha, hfa⟩ := ih h; exact ⟨a, by simp [ha], hfa⟩

/-- generateSlices only ever throws the configuration error. -/
lemma generateSlices_error_config (cfg : Config) (ovr co : Bool) (s : Int)
    (total : ℚ) (n : Nat) (e : SchedErr)
    (h : generateSlices cfg ovr co s total n = Except.error e) :
    e = SchedErr.config := by
  unfold generateSlices at h
  split_ifs at h
  simp_all

/-- The row loop only ever fails with the overlap or daily-cap error. -/
lemma capGo_some_range (editId : Option Nat) (a b c : ℚ) :
    ∀ (rows : List ExRow) (assigned : ℚ) (e : SchedErr),
      capGo editId a b c rows assigned = some e →
      e = SchedErr.overlap ∨ e = SchedErr.dailyCap := by
  intro rows
  induction rows with
  | nil =>
    intro assigned e h
    unfold capGo at h
    split_ifs at h
    simp_all
  | cons r rs ih =>
    intro assigned e h
    rw [capGo] at h
    split_ifs at h with h1 h2
    · exact ih assigned e h
    · simp_all
    · exact ih (assigned + r.hours) e h

/-- The cap/overlap validation only ever fails with the overlap or
daily-cap error. -/
lemma capOverlapCheck_some_range (existing : List ExRow) (editId : Option Nat)
    (installers : List Nat) (slices : List Slice) (e : SchedErr)
    (h : capOverlapCheck existing editId installers slices = some e) :
    e = SchedErr.overlap ∨ e = SchedErr.dailyCap := by
  unfold capOverlapCheck at h
  obtain ⟨sl, _, h2⟩ := findSome?_some _ _ _ h
  obtain ⟨i, _, h3⟩ := findSome?_some _ _ _ h2
  unfold checkOne at h3
  exact capGo_some_range editId _ _ _ _ 0 e h3

/-- The availability test only ever fails with an availability error. -/
lemma availCheckOne_some_avail (avail : Nat → Int → Option AvailRec)
    (day : Int) (span : List Nat) (i : Nat) (e : SchedErr)
    (h : availCheckOne avail day span i = some e) : isAvailErr e = true := by
  unfold availCheckOne at h
  split at h
  · simp at h
  · split_ifs at h with h1
    · have he : SchedErr.availAllDay = e := by simpa using h
      subst he; rfl
    · split at h
      · split_ifs at h
        have he : SchedErr.availHours = e := by simpa using h
        subst he; rfl
      · simp at h

lemma availabilityCheck_some_avail (avail : Nat → Int → Option AvailRec)
    (installers : List Nat) (man : ℚ) (date : Int) (e : SchedErr)
    (h : availabilityCheck avail installers man date = some e) :
    isAvailErr e = true := by
  unfold availabilityCheck at h
  obtain ⟨i, _, h2⟩ := findSome?_some _ _ _ h
  exact availCheckOne_some_avail avail _ _ i e h2

lemma availGate_some_avail (cfg : Config) (avail : Nat → Int → Option AvailRec)
    (req : PostReq) (e : SchedErr) (h : availGate cfg avail req = some e) :
    isAvailErr e = true := by
  unfold availGate at h
  split_ifs at h
  exact availabilityCheck_some_avail avail _ _ _ e h

lemma capGate_some_range (existing : List ExRow) (req : PostReq)
    (slices : List Slice) (e : SchedErr) (h : capGate existing req slices = some e) :
    e = SchedErr.overlap ∨ e = SchedErr.dailyCap := by
  unfold capGate at h
  split_ifs at h
  exact capOverlapCheck_some_range existing none req.installers slices e h

/-- The pipeline result is an availability failure exactly when the guarded
availability block fires. -/
lemma resAvail_iff_availGate (cfg : Config) (avail : Nat → Int → Option AvailRec)
    (existing : List ExRow) (req : PostReq) :
    resAvailErr (postSchedule cfg avail existing req) = true
      ↔ availGate cfg avail req ≠ none := by
  unfold postSchedule
  cases hA : availGate cfg avail req with
  | some e =>
    simp [resAvailErr, availGate_some_avail cfg avail req e hA]
  | none =>
    simp only [hA]
    cases hg : generateSlices cfg req.override req.core_hours_override
        (postShiftDate cfg req.override req.core_hours_override req.date)
        req.man_hours req.installers.length with
    | error e =>
      have he := generateSlices_error_config _ _ _ _ _ _ e hg
      subst he
      simp [resAvailErr, isAvailErr]
    | ok slices =>
      cases hc : capGate existing req slices with
      | some e =>
        rcases capGate_some_range existing req slices e hc with he | he <;>
          subst he <;> simp [hg, hc, resAvailErr, isAvailErr]
      | none => simp [hg, hc, resAvailErr]

/-- The per-installer availability test fires exactly when a record exists
and is out all day, or lists an out hour meeting the touched span. -/
lemma availCheckOne_ne_none_iff (avail : Nat → Int → Option AvailRec)
    (day : Int) (span : List Nat) (i : Nat) :
    availCheckOne avail day span i ≠ none
      ↔ ∃ r, avail i day = some r
          ∧ (r.out = true
             ∨ ∃ oh, r.outHours = some oh ∧ ∃ h ∈ span, h ∈ oh) := by
  unfold availCheckOne
  cases hv : avail i day with
  | none => simp
  | some r =>
    constructor
    · intro hne
      by_cases h1 : r.out = true
      · exact ⟨r, rfl, Or.inl h1⟩
      · cases hoh : r.outHours with
        | none => exact absurd (by simp [h1, hoh]) hne
        | some oh =>
          by_cases hany : span.any (fun h => decide (h ∈ oh)) = true
          · refine ⟨r, rfl, Or.inr ⟨oh, hoh, ?_⟩⟩
            simpa [List.any_eq_true] using hany
          · exact absurd (by simp [h1, hoh, hany]) hne
    · rintro ⟨r', hr', hcond⟩ hnone
      rw [Option.some.injEq] at hr'
      subst hr'
      rcases hcond with hout | ⟨oh, hoh, x, hmem, hin⟩
      · simp [hout] at hnone
      · by_cases h1 : r.out = true
        · simp [h1] at hnone
        · have hany : span.any (fun y => decide (y ∈ oh)) = true := by
            simp only [List.any_eq_true, decide_eq_true_eq]
            exact ⟨x, hmem, hin⟩
          simp [h1, hoh, hany] at hnone

/-- The availability enforcement fires exactly when some assigned installer
has a conflicting record for the day. -/
lemma availabilityCheck_ne_none_iff (avail : Nat → Int → Option AvailRec)
    (installers : List Nat) (man : ℚ) (date : Int) :
    availabilityCheck avail installers man date ≠ none
      ↔ ∃ i ∈ installers,
          availCheckOne avail (dayOf date)
            (hoursSpan (hourOf date) (man / (installers.length : ℚ))) i ≠ none := by
  unfold availabilityCheck
  rw [Ne, findSome?_eq_none_iff]
  push_neg
  rfl

/-- Claim C4, as stated, is false: with the hours/overlap override set and
the availability override not set, an out-all-day installer is not
rejected; the job is persisted, although the claim says the availability
check is skipped only when overrideAvailability is set. -/
theorem c4_counterexample :
    postSchedule cfgD avail0 [] req1 = Except.ok (6240, [⟨6240, 4⟩])
      ∧ req1.override_availability = false
      ∧ avail0 1 (dayOf 6240) = some ⟨true, none⟩ :=
  ⟨by with_unfolding_all rfl, rfl, by with_unfolding_all rfl⟩

/-- Claim C4 (amended): the availability check is skipped when the
hours/overlap override or the availability override is set (and also when
the installer list is empty or man-hours are zero); when it runs, the
pipeline fails with an availability conflict exactly when some assigned
installer has a record for the effective day that is out all day or whose
out hours meet the integer hours spanned from the start hour. -/
theorem c4_amended_theorem (cfg : Config) (avail : Nat → Int → Option AvailRec)
    (existing : List ExRow) (req : PostReq) :
    ((req.override = true ∨ req.override_availability = true) →
      resAvailErr (postSchedule cfg avail existing req) = false)
    ∧ (req.override = false → req.override_availability = false →
        req.installers ≠ [] → req.man_hours ≠ 0 →
        (resAvailErr (postSchedule cfg avail existing req) = true
          ↔ ∃ i ∈ req.installers, ∃ r,
              avail i (dayOf (postShiftDate cfg req.override req.core_hours_override req.date))
                  = some r
                ∧ (r.out = true
                   ∨ ∃ oh, r.outHours = some oh
                       ∧ ∃ h ∈ hoursSpan
                           (hourOf (postShiftDate cfg req.override req.core_hours_override req.date))
                           (req.man_hours / (req.installers.length : ℚ)), h ∈ oh))) := by
  constructor
  · intro hoc
    have hA : availGate cfg avail req = none := by
      unfold availGate
      rcases hoc with h | h <;> rw [if_neg] <;> simp [h]
    have hkey := resAvail_iff_availGate cfg avail existing req
    rw [hA] at hkey
    simp only [ne_eq, not_true_eq_false, iff_false] at hkey
    simpa using hkey
  · intro ho hoa hi hm
    have hA : availGate cfg avail req
        = availabilityCheck avail req.installers req.man_hours
            (postShiftDate cfg req.override req.core_hours_override req.date) := by
      unfold availGate
      rw [if_pos ⟨hi, hm, ho, hoa⟩]
    rw [resAvail_iff_availGate cfg avail existing req, hA,
      availabilityCheck_ne_none_iff]
    constructor
    · rintro ⟨i, hi2, hne⟩
      exact ⟨i, hi2, (availCheckOne_ne_none_iff avail _ _ i).mp hne⟩
    · rintro ⟨i, hi2, hex⟩
      exact ⟨i, hi2, (availCheckOne_ne_none_iff avail _ _ i).mpr hex⟩

/-- Request: Monday 08:00, 4 man-hours, installer 1, no overrides. -/
def req0 : PostReq := ⟨6240, 4, [1], false, false, false⟩

/-- Witness for c4_amended_theorem: with no overrides, the out-all-day
record of installer 1 makes the pipeline fail with an availability
conflict. -/
theorem c4_witness : resAvailErr (postSchedule cfgD avail0 [] req0) = true :=
  ((c4_amended_theorem cfgD avail0 [] req0).2 rfl rfl (by simp [req0])
      (by norm_num [req0])).mpr
    ⟨1, by simp [req0], ⟨true, none⟩, by with_unfolding_all rfl, Or.inl rfl⟩

lemma dayOf_lower (t : Int) : 1440 * dayOf t ≤ t := by unfold dayOf; omega

lemma dayOf_eq_of_bounds {d t : Int} (h1 : 1440 * d ≤ t)
    (h2 : t < 1440 * (d + 1)) : dayOf t = d := by unfold dayOf at *; omega

lemma le_dayOf_of_le {d t : Int} (h : 1440 * d ≤ t) : d ≤ dayOf t := by
  unfold dayOf at *; omega

/-- Advancing the cursor moves the calendar day strictly forward. -/
lemma dayOf_nextCursor (cfg : Config) (day : Int) :
    day + 1 ≤ dayOf (nextCursor cfg day) := by
  unfold nextCursor atHour dayOf; omega

lemma firstDayAdjust_bounds (cfg : Config) (s0 : Int) (first : Bool) (day : Int)
    (hlt : dayWorkStart0 cfg day < dayWorkEndCap cfg day) :
    dayWorkStart0 cfg day ≤ firstDayAdjust cfg s0 first day
      ∧ firstDayAdjust cfg s0 first day < dayWorkEndCap cfg day := by
  unfold firstDayAdjust
  split_ifs with h
  · exact ⟨le_of_lt h.2.1, h.2.2⟩
  · exact ⟨le_refl _, hlt⟩

/-- With coreEnd at most 23, the emitted start stays inside the iterated
calendar day. -/
lemma workStart_day (cfg : Config) (hce : cfg.coreEnd ≤ 23) (s0 : Int)
    (first : Bool) (day : Int)
    (hlt : dayWorkStart0 cfg day < dayWorkEndCap cfg day) :
    1440 * day ≤ firstDayAdjust cfg s0 first day
      ∧ firstDayAdjust cfg s0 first day < 1440 * (day + 1)
      ∧ dayOf (firstDayAdjust cfg s0 first day) = day := by
  obtain ⟨hlo, hhi⟩ := firstDayAdjust_bounds cfg s0 first day hlt
  have h1 : 1440 * day ≤ dayWorkStart0 cfg day := by
    unfold dayWorkStart0 atHour; omega
  have hceZ : (cfg.coreEnd : Int) ≤ 23 := by exact_mod_cast hce
  have h2 : dayWorkEndCap cfg day ≤ 1440 * (day + 1) := by
    unfold dayWorkEndCap atHour; omega
  have hA : 1440 * day ≤ firstDayAdjust cfg s0 first day := le_trans h1 hlo
  have hB : firstDayAdjust cfg s0 first day < 1440 * (day + 1) :=
    lt_of_lt_of_le hhi h2
  exact ⟨hA, hB, dayOf_eq_of_bounds hA hB⟩

/-- The per-day slice duration never exceeds the per-day workable span. -/
lemma dayCapHours_le_capQ (cfg : Config) (s0 : Int) (first : Bool) (day : Int)
    (hlt : dayWorkStart0 cfg day < dayWorkEndCap cfg day) :
    dayCapHours cfg s0 first day ≤ capQ cfg := by
  obtain ⟨hlo, _⟩ := firstDayAdjust_bounds cfg s0 first day hlt
  unfold dayCapHours
  have hIle : dayWorkEndCap cfg day - firstDayAdjust cfg s0 first day
      ≤ dayWorkEndCap cfg day - dayWorkStart0 cfg day := by omega
  have hcast : ((dayWorkEndCap cfg day - firstDayAdjust cfg s0 first day : Int) : ℚ)
      ≤ ((dayWorkEndCap cfg day - dayWorkStart0 cfg day : Int) : ℚ) := by
    exact_mod_cast hIle
  have heq : ((dayWorkEndCap cfg day - dayWorkStart0 cfg day : Int) : ℚ) / 60
      = capQ cfg := by
    unfold dayWorkEndCap dayWorkStart0 atHour capQ
    push_cast
    ring
  calc ((dayWorkEndCap cfg day - firstDayAdjust cfg s0 first day : Int) : ℚ) / 60
      ≤ ((dayWorkEndCap cfg day - dayWorkStart0 cfg day : Int) : ℚ) / 60 :=
        (div_le_div_iff_of_pos_right (by norm_num : (0 : ℚ) < 60)).mpr hcast
    _ = capQ cfg := heq

/-- Loop invariant of the day-by-day generator: every emitted slice lies on
or after the cursor's day, on a working day, with a duration in
(0, capQ]; and the slices are strictly ordered by start and by day. -/
lemma sliceLoopAux_inv (cfg : Config) (hce : cfg.coreEnd ≤ 23) (s0 : Int) :
    ∀ (fuel : Nat) (first : Bool) (rem : ℚ) (cur : Int),
      (∀ sl ∈ (sliceLoopAux cfg s0 fuel first rem cur).1,
          1440 * dayOf cur ≤ sl.start
            ∧ ¬ isNonWorkingDay cfg (dayOf sl.start)
            ∧ 0 < sl.hours ∧ sl.hours ≤ capQ cfg)
        ∧ (sliceLoopAux cfg s0 fuel first rem cur).1.Pairwise
            (fun a b => a.start < b.start ∧ dayOf a.start < dayOf b.start) := by
  intro fuel
  induction fuel with
  | zero => intro first rem cur; simp [sliceLoopAux]
  | succ f ih =>
    intro first rem cur
    rw [sliceLoopAux]
    by_cases h0 : rem ≤ 0
    · simp [h0]
    · rw [if_neg h0]
      by_cases h1 : isNonWorkingDay cfg (dayOf cur)
      · rw [if_pos h1]
        obtain ⟨ihA, ihP⟩ := ih false rem (nextCursor cfg (dayOf cur))
        refine ⟨?_, ihP⟩
        intro sl hsl
        obtain ⟨hb, hrest⟩ := ihA sl hsl
        have hnc := dayOf_nextCursor cfg (dayOf cur)
        exact ⟨by omega, hrest⟩
      · rw [if_neg h1]
        by_cases h2 : dayWorkEndCap cfg (dayOf cur) ≤ dayWorkStart0 cfg (dayOf cur)
        · rw [if_pos h2]
          obtain ⟨ihA, ihP⟩ := ih false rem (nextCursor cfg (dayOf cur))
          refine ⟨?_, ihP⟩
          intro sl hsl
          obtain ⟨hb, hrest⟩ := ihA sl hsl
          have hnc := dayOf_nextCursor cfg (dayOf cur)
          exact ⟨by omega, hrest⟩
        · rw [if_neg h2]
          by_cases h3 : dayCapHours cfg s0 first (dayOf cur) ≤ 0
          · rw [if_pos h3]
            obtain ⟨ihA, ihP⟩ := ih false rem (nextCursor cfg (dayOf cur))
            refine ⟨?_, ihP⟩
            intro sl hsl
            obtain ⟨hb, hrest⟩ := ihA sl hsl
            have hnc := dayOf_nextCursor cfg (dayOf cur)
            exact ⟨by omega, hrest⟩
          · rw [if_neg h3]
            have hlt : dayWorkStart0 cfg (dayOf cur) < dayWorkEndCap cfg (dayOf cur) :=
              not_le.mp h2
            obtain ⟨hws1, hws2, hwday⟩ := workStart_day cfg hce s0 first (dayOf cur) hlt
            obtain ⟨ihA, ihP⟩ := ih false
              (rem - min rem (dayCapHours cfg s0 first (dayOf cur)))
              (nextCursor cfg (dayOf cur))
            have hnc := dayOf_nextCursor cfg (dayOf cur)
            constructor
            · intro sl hsl
              rcases List.mem_cons.mp hsl with rfl | htail
              · refine ⟨hws1, ?_, ?_, ?_⟩
                · rw [hwday]; exact h1
                · exact lt_min (not_le.mp h0) (not_le.mp h3)
                · exact le_trans (min_le_right _ _)
                    (dayCapHours_le_capQ cfg s0 first (dayOf cur) hlt)
              · obtain ⟨hb, hrest⟩ := ihA sl htail
                exact ⟨by omega, hrest⟩
            · refine List.pairwise_cons.mpr ⟨?_, ihP⟩
              intro b hb
              obtain ⟨hbB, _⟩ := ihA b hb
              have hbb := dayOf_lower b.start
              have hbday : dayOf cur + 1 ≤ dayOf b.start :=
                le_dayOf_of_le (by omega)
              constructor
              · show firstDayAdjust cfg s0 first (dayOf cur) < b.start
                omega
              · show dayOf (firstDayAdjust cfg s0 first (dayOf cur)) < dayOf b.start
                rw [hwday]; omega

/-- On the non-override path, the result is either the degenerate empty
list (no installers or no man-hours) or the day-loop output. -/
lemma generateSlices_ok_cases (cfg : Config) (s : Int) (total : ℚ) (n : Nat)
    (slices : List Slice)
    (hgen : generateSlices cfg false false s total n = Except.ok slices) :
    slices = []
      ∨ slices = (sliceLoopAux cfg s 100 true (total / (n : ℚ)) (alignStart cfg s)).1 := by
  unfold generateSlices at hgen
  by_cases h1 : n = 0 ∨ total = 0
  · rw [if_pos h1] at hgen
    exact Or.inl ((Except.ok.injEq _ _).mp hgen).symm
  · rw [if_neg h1] at hgen
    by_cases h2 : workableSpanQ cfg ≤ 0
    · rw [if_pos ⟨rfl, rfl, h2⟩] at hgen
      exact absurd hgen (by simp)
    · rw [if_neg (fun hcon => h2 hcon.2.2)] at hgen
      rw [if_neg (by simp)] at hgen
      exact Or.inr ((Except.ok.injEq _ _).mp hgen).symm

/-- Claim C6: on the non-override path (with a data-model config,
coreEndHour at most 23), no emitted slice's calendar day is a weekend or
a configured holiday. -/
theorem c6_theorem (cfg : Config) (hce : cfg.coreEnd ≤ 23) (s : Int)
    (total : ℚ) (n : Nat) (slices : List Slice)
    (hgen : generateSlices cfg false false s total n = Except.ok slices) :
    ∀ sl ∈ slices, ¬ isNonWorkingDay cfg (dayOf sl.start) := by
  rcases generateSlices_ok_cases cfg s total n slices hgen with rfl | rfl
  · simp
  · intro sl hsl
    exact (((sliceLoopAux_inv cfg hce s 100 true (total / (n : ℚ))
      (alignStart cfg s)).1) sl hsl).2.1

/-- Witness for c6_theorem: the first Scenario 1 slice starts on a working
day. -/
theorem c6_witness : ¬ isNonWorkingDay cfgD (dayOf (1920 : Int)) :=
  c6_theorem cfgD (by decide) 1920 20 1 [⟨1920, 8⟩, ⟨6240, 8⟩, ⟨7680, 4⟩]
    (by with_unfolding_all rfl) ⟨1920, 8⟩ (by simp)

/-- Claim C10: on the non-override path (with a data-model config,
coreEndHour at most 23), slices are strictly increasing in start
timestamp, no two share a calendar day, and every duration is strictly
positive and at most (coreEnd - coreStart) - (driveOut + driveBack)/60
hours. -/
theorem c10_theorem (cfg : Config) (hce : cfg.coreEnd ≤ 23) (s : Int)
    (total : ℚ) (n : Nat) (slices : List Slice)
    (hgen : generateSlices cfg false false s total n = Except.ok slices) :
    slices.Pairwise (fun a b => a.start < b.start ∧ dayOf a.start ≠ dayOf b.start)
      ∧ ∀ sl ∈ slices, 0 < sl.hours ∧ sl.hours ≤ capQ cfg := by
  rcases generateSlices_ok_cases cfg s total n slices hgen with rfl | rfl
  · simp
  · obtain ⟨hA, hP⟩ := sliceLoopAux_inv cfg hce s 100 true (total / (n : ℚ))
      (alignStart cfg s)
    refine ⟨hP.imp ?_, ?_⟩
    · intro a b hab
      exact ⟨hab.1, ne_of_lt hab.2⟩
    · intro sl hsl
      exact ⟨(hA sl hsl).2.2.1, (hA sl hsl).2.2.2⟩

/-- Witness for c10_theorem on the Scenario 1 output. -/
theorem c10_witness :
    ([⟨1920, 8⟩, ⟨6240, 8⟩, ⟨7680, 4⟩] : List Slice).Pairwise
        (fun a b => a.start < b.start ∧ dayOf a.start ≠ dayOf b.start)
      ∧ ∀ sl ∈ ([⟨1920, 8⟩, ⟨6240, 8⟩, ⟨7680, 4⟩] : List Slice),
          0 < sl.hours ∧ sl.hours ≤ capQ cfgD :=
  c10_theorem cfgD (by decide) 1920 20 1 _ (by with_unfolding_all rfl)

end InstallSched
